import Mathlib

/-!
Verification development for the tenant-scoped connection manager of the
`secure-api-handler` repository (`SeparateDatabaseStrategy`).

The TypeScript class keeps three pieces of mutable state:

* `tenantCache : Map<string, TenantContext>` — time-bounded cache of tenant
  metadata (expired by `setTimeout` callbacks scheduled at insertion);
* `prismaClients : Map<string, PrismaClient>` — bounded pool of live backend
  connections keyed by tenant id (JS `Map` iterates in insertion order, so
  `keys().next().value` is the first-inserted key);
* the master directory of tenant records, read through the master client
  (`tenant.findUnique`) and written by `tenant.update`.

We embed JS `Map`s as insertion-ordered association lists, connection handles
as natural numbers drawn from a counter, and the backend as an environment
that decides which raw commands succeed and which connection dials succeed.
`setTimeout` callbacks are modelled as a pending-timer list: the code never
stores or cancels a timer handle, so a scheduled deletion stays pending until
its fire time, exactly as in the source.
-/

namespace SecureApi

/-- Insertion-ordered association list used to model a JS `Map`. -/
abbrev JsMap (α : Type) := List (String × α)

/-- `Map.get` — first binding for the key, if any. -/
def mapGet {α : Type} (k : String) : JsMap α → Option α
  | [] => none
  | (k', v) :: rest => if k' = k then some v else mapGet k rest

/-- `Map.set` — replace the binding in place if the key exists, else append
(JS `Map.set` keeps the original insertion position of an existing key). -/
def mapSet {α : Type} (k : String) (v : α) : JsMap α → JsMap α
  | [] => [(k, v)]
  | (k', v') :: rest =>
      if k' = k then (k, v) :: rest else (k', v') :: mapSet k v rest

/-- `Map.delete` — remove the binding for the key, if any. -/
def mapDelete {α : Type} (k : String) : JsMap α → JsMap α
  | [] => []
  | (k', v') :: rest =>
      if k' = k then rest else (k', v') :: mapDelete k rest

@[simp] theorem mapGet_nil {α : Type} (k : String) :
    mapGet (α := α) k [] = none := rfl

theorem mapGet_mapSet {α : Type} (k k' : String) (v : α) (m : JsMap α) :
    mapGet k (mapSet k' v m) = if k' = k then some v else mapGet k m := by
  induction m with
  | nil => simp [mapSet, mapGet]
  | cons hd tl ih =>
      obtain ⟨k₀, v₀⟩ := hd
      by_cases h₀ : k₀ = k'
      · subst h₀
        by_cases h₁ : k₀ = k <;> simp [mapSet, mapGet, h₁]
      · by_cases h₁ : k₀ = k
        · subst h₁
          have hks : k' ≠ k₀ := fun h => h₀ h.symm
          simp [mapSet, mapGet, h₀, hks]
        · simp [mapSet, mapGet, h₀, h₁, ih]

theorem mapGet_mapSet_self {α : Type} (k : String) (v : α) (m : JsMap α) :
    mapGet k (mapSet k v m) = some v := by
  simp [mapGet_mapSet]

theorem mapGet_mapSet_ne {α : Type} {k k' : String} (v : α) (m : JsMap α)
    (h : k' ≠ k) : mapGet k (mapSet k' v m) = mapGet k m := by
  simp [mapGet_mapSet, h]

/-- Setting a key that is absent appends the new binding at the end,
matching the insertion-order behaviour of `Map.set` on a fresh key. -/
theorem mapSet_fresh {α : Type} {k : String} (v : α) {m : JsMap α}
    (h : mapGet k m = none) : mapSet k v m = m ++ [(k, v)] := by
  induction m with
  | nil => simp [mapSet]
  | cons hd tl ih =>
      obtain ⟨k₀, v₀⟩ := hd
      by_cases h₀ : k₀ = k
      · subst h₀; simp [mapGet] at h
      · simp [mapGet, h₀] at h
        simp [mapSet, h₀, ih h]

theorem mapGet_eq_none_of_not_mem {α : Type} {k : String} {m : JsMap α}
    (h : k ∉ m.map Prod.fst) : mapGet k m = none := by
  induction m with
  | nil => rfl
  | cons hd tl ih =>
      obtain ⟨k₀, v₀⟩ := hd
      simp only [List.map_cons, List.mem_cons] at h
      push_neg at h
      simp [mapGet, Ne.symm h.1, ih h.2]

theorem mem_map_fst_of_mapGet_some {α : Type} {k : String} {m : JsMap α} {v : α}
    (h : mapGet k m = some v) : k ∈ m.map Prod.fst := by
  by_contra hmem
  rw [mapGet_eq_none_of_not_mem hmem] at h
  exact Option.noConfusion h

theorem mapGet_mapDelete {α : Type} (k k' : String) (m : JsMap α)
    (hnd : (m.map Prod.fst).Nodup) :
    mapGet k (mapDelete k' m) = if k' = k then none else mapGet k m := by
  induction m with
  | nil => simp [mapDelete]
  | cons hd tl ih =>
      obtain ⟨k₀, v₀⟩ := hd
      simp only [List.map_cons, List.nodup_cons] at hnd
      by_cases h₀ : k₀ = k'
      · subst h₀
        by_cases h₁ : k₀ = k
        · subst h₁
          simp [mapDelete, mapGet_eq_none_of_not_mem hnd.1]
        · simp [mapDelete, mapGet, h₁]
      · by_cases h₁ : k₀ = k
        · subst h₁
          have hks : k' ≠ k₀ := fun h => h₀ h.symm
          simp [mapDelete, mapGet, h₀, hks]
        · simp [mapDelete, mapGet, h₀, h₁, ih hnd.2]

theorem map_fst_mapSet {α : Type} (k : String) (v : α) (m : JsMap α) :
    (mapSet k v m).map Prod.fst =
      if k ∈ m.map Prod.fst then m.map Prod.fst else m.map Prod.fst ++ [k] := by
  induction m with
  | nil => simp [mapSet]
  | cons hd tl ih =>
      obtain ⟨k₀, v₀⟩ := hd
      by_cases h₀ : k₀ = k
      · subst h₀; simp [mapSet]
      · simp only [mapSet, if_neg h₀, List.map_cons, List.mem_cons]
        rw [ih]
        by_cases hmem : k ∈ tl.map Prod.fst
        · simp [hmem, Ne.symm h₀]
        · simp [hmem, Ne.symm h₀]

theorem nodup_map_fst_mapSet {α : Type} (k : String) (v : α) (m : JsMap α)
    (h : (m.map Prod.fst).Nodup) : ((mapSet k v m).map Prod.fst).Nodup := by
  rw [map_fst_mapSet]
  by_cases hmem : k ∈ m.map Prod.fst
  · simpa [hmem] using h
  · simp only [if_neg hmem]
    exact List.Nodup.append h (List.nodup_singleton k) (by simpa using hmem)

theorem mem_mapDelete_subset {α : Type} {p : String × α} {k : String} {m : JsMap α}
    (h : p ∈ mapDelete k m) : p ∈ m := by
  induction m with
  | nil => simp [mapDelete] at h
  | cons hd tl ih =>
      obtain ⟨k₀, v₀⟩ := hd
      by_cases h₀ : k₀ = k
      · subst h₀
        simp only [mapDelete, if_pos rfl] at h
        exact List.mem_cons_of_mem _ h
      · simp only [mapDelete, if_neg h₀, List.mem_cons] at h
        rcases h with h | h
        · exact h ▸ List.mem_cons_self _ _
        · exact List.mem_cons_of_mem _ (ih h)

theorem nodup_map_fst_mapDelete {α : Type} (k : String) (m : JsMap α)
    (h : (m.map Prod.fst).Nodup) : ((mapDelete k m).map Prod.fst).Nodup := by
  induction m with
  | nil => simp [mapDelete]
  | cons hd tl ih =>
      obtain ⟨k₀, v₀⟩ := hd
      simp only [List.map_cons, List.nodup_cons] at h
      by_cases h₀ : k₀ = k
      · subst h₀; simpa [mapDelete] using h.2
      · simp only [mapDelete, if_neg h₀, List.map_cons, List.nodup_cons]
        refine ⟨fun hmem => h.1 ?_, ih h.2⟩
        rcases List.mem_map.mp hmem with ⟨p, hp, hfst⟩
        exact hfst ▸ List.mem_map_of_mem Prod.fst (mem_mapDelete_subset hp)

/-- `startsWithChars pat cs` — does `cs` start with `pat`? -/
def startsWithChars : List Char → List Char → Bool
  | [], _ => true
  | _ :: _, [] => false
  | p :: ps, c :: cs => decide (p = c) && startsWithChars ps cs

/-- JS `String.prototype.replace` with a string pattern replaces only the
first occurrence of the pattern. -/
def replaceFirstChars (pat rep : List Char) : List Char → List Char
  | [] => []
  | c :: cs =>
      if startsWithChars pat (c :: cs) then rep ++ (c :: cs).drop pat.length
      else c :: replaceFirstChars pat rep cs

def replaceFirstStr (s pat rep : String) : String :=
  String.mk (replaceFirstChars pat.toList rep.toList s.toList)

/-- The constructor's default template: the master URL with its last path
segment replaced — `masterDatabaseUrl.replace(/\/[^/]+$/, '/tenant_{tenantId}')`.
The regex matches a final slash followed by at least one non-slash character;
if it does not match the URL is returned unchanged. -/
def defaultTemplate (url : String) : String :=
  let rev := url.toList.reverse
  let seg := rev.takeWhile (fun c => c != '/')
  let rest := rev.dropWhile (fun c => c != '/')
  if seg.isEmpty || rest.isEmpty then url
  else String.mk ((rest.drop 1).reverse ++ "/tenant_{tenantId}".toList)

/-- A tenant's directory record, as selected from the master database
(`tenant.findUnique`): `name`, `isActive`, and the opaque `config` JSON
object, modelled as a string-to-string association list. -/
structure TenantRecord where
  name : String
  isActive : Bool
  config : List (String × String)
deriving DecidableEq

/-- `TenantContext` from `core/types`, as constructed in `getTenantContext`. -/
structure TenantContext where
  id : String
  name : String
  config : List (String × String)
  database : String
deriving DecidableEq

/-- Raw SQL commands the strategy issues through `masterClient.$executeRawUnsafe`. -/
inductive RawCmd where
  | createDb (dbName : String)
  | terminateSessions (dbName : String)
  | dropDb (dbName : String)
deriving DecidableEq

/-- The backend environment: which raw commands succeed and which
connection dials (`client.$connect()`) succeed, keyed by database URL. -/
structure Env where
  exec : RawCmd → Bool
  dialOk : String → Bool

/-- The mutable state of a `SeparateDatabaseStrategy` instance, plus the
master database's tenant table (`dir`), which the strategy reads with
`tenant.findUnique` and writes with `tenant.update`.

* `prismaClients` is the connection pool: tenant id → handle, in insertion
  order (JS `Map` iteration order).
* `closed` records every handle on which `$disconnect()` has completed.
* `nextHandle` numbers the `new PrismaClient(...)` allocations.
* `cacheTimers` holds the pending `setTimeout` deletions scheduled by
  `getTenantContext`; the source never stores or cancels a timer handle. -/
structure StratState where
  masterDatabaseUrl : String
  databaseUrlTemplate : String
  maxConnections : Nat
  cacheTtl : Nat
  tenantCache : JsMap TenantContext
  cacheTimers : List (String × Nat)
  prismaClients : JsMap Nat
  closed : List Nat
  nextHandle : Nat
  dir : JsMap TenantRecord
  masterClosed : Bool
deriving DecidableEq

/-- The `SeparateDatabaseConfig` interface (optional fields). -/
structure SeparateDatabaseConfig where
  masterDatabaseUrl : String
  databaseUrlTemplate : Option String := none
  maxConnections : Option Nat := none
  cacheTtl : Option Nat := none

/-- JS `x || d` for an optional number: `undefined` and `0` are falsy. -/
def jsOrNat (x : Option Nat) (d : Nat) : Nat :=
  match x with
  | some n => if n = 0 then d else n
  | none => d

/-- JS `x || d` for an optional string: `undefined` and `""` are falsy. -/
def jsOrStr (x : Option String) (d : String) : String :=
  match x with
  | some t => if t = "" then d else t
  | none => d

/-- The constructor of `SeparateDatabaseStrategy`: empty cache and pool,
defaulted template, `maxConnections || 10`, `cacheTtl || 5 * 60 * 1000`. -/
def mkStrategy (cfg : SeparateDatabaseConfig) (dir : JsMap TenantRecord) :
    StratState :=
  { masterDatabaseUrl := cfg.masterDatabaseUrl
    databaseUrlTemplate :=
      jsOrStr cfg.databaseUrlTemplate (defaultTemplate cfg.masterDatabaseUrl)
    maxConnections := jsOrNat cfg.maxConnections 10
    cacheTtl := jsOrNat cfg.cacheTtl 300000
    tenantCache := []
    cacheTimers := []
    prismaClients := []
    closed := []
    nextHandle := 0
    dir := dir
    masterClosed := false }

/-- `getDatabaseUrlForTenant`: substitute the tenant id into the template. -/
def getDatabaseUrlForTenant (s : StratState) (tenantId : String) : String :=
  replaceFirstStr s.databaseUrlTemplate "{tenantId}" tenantId

/-- `validateTenant`: the record exists and `isActive` is true. A failing
master query is caught and reported as `false`; the master lookup itself is
modelled as infallible. -/
def validateTenant (s : StratState) (tenantId : String) : Bool :=
  match mapGet tenantId s.dir with
  | some r => r.isActive
  | none => false

/-- The database URL `getTenantContext` derives on a cache miss:
`tenant.config?.databaseUrl`, falling back to the template when the field is
absent or falsy (the empty string). Returns `""` when the record is absent
(the branch `getTenantContext` never reaches). -/
def contextUrl (s : StratState) (tenantId : String) : String :=
  match mapGet tenantId s.dir with
  | none => ""
  | some r =>
      match mapGet "databaseUrl" r.config with
      | some u => if u = "" then getDatabaseUrlForTenant s tenantId else u
      | none => getDatabaseUrlForTenant s tenantId

/-- `getTenantContext`: return the cached context if present; otherwise
fetch the record, return `none` if missing or inactive, else build the
context, cache it, and schedule its deletion at `now + cacheTtl` via
`setTimeout` (appended to `cacheTimers`; the handle is dropped). -/
def getTenantContext (now : Nat) (tenantId : String) (s : StratState) :
    Option TenantContext × StratState :=
  match mapGet tenantId s.tenantCache with
  | some cached => (some cached, s)
  | none =>
      match mapGet tenantId s.dir with
      | none => (none, s)
      | some r =>
          if r.isActive then
            let ctx : TenantContext :=
              { id := tenantId, name := r.name, config := r.config
                database := contextUrl s tenantId }
            (some ctx,
             { s with
                tenantCache := mapSet tenantId ctx s.tenantCache
                cacheTimers := s.cacheTimers ++ [(tenantId, now + s.cacheTtl)] })
          else (none, s)

/-- `evictOldestClient`: `prismaClients.keys().next().value` is the
first-inserted key; its client is disconnected and the entry deleted. -/
def evictOldestClient (s : StratState) : StratState :=
  match s.prismaClients with
  | [] => s
  | (_, h) :: rest => { s with closed := s.closed ++ [h], prismaClients := rest }

/-- The errors `getPrismaClient` can throw: `Invalid tenant: ...`
(the spec's `NotFoundError`), `No database configured for tenant: ...`,
and `Database connection failed for tenant ...` (the spec's
`ConnectionError`). -/
inductive GetErr where
  | invalidTenant
  | noDatabaseConfigured
  | connectionFailed
deriving DecidableEq

/-- Result of `getPrismaClient`: a connection handle or a thrown error. -/
inductive GetResult where
  | ok (h : Nat)
  | error (e : GetErr)
deriving DecidableEq

/-- `getPrismaClient` (= the spec's `ConnectionPool.getOrCreate`):
pool hit returns the pooled handle; otherwise validate the tenant, resolve
its context, allocate a client, dial, insert into the pool, and evict the
oldest entry if the pool now exceeds `maxConnections`. -/
def getPrismaClient (env : Env) (now : Nat) (tenantId : String)
    (s : StratState) : GetResult × StratState :=
  match mapGet tenantId s.prismaClients with
  | some h => (GetResult.ok h, s)
  | none =>
      if validateTenant s tenantId = false then
        (GetResult.error GetErr.invalidTenant, s)
      else
        match getTenantContext now tenantId s with
        | (none, s₁) => (GetResult.error GetErr.noDatabaseConfigured, s₁)
        | (some ctx, s₁) =>
            if ctx.database = "" then (GetResult.error GetErr.noDatabaseConfigured, s₁)
            else
              -- `new PrismaClient(...)` allocates the client before `$connect`
              let h := s₁.nextHandle
              let s₂ := { s₁ with nextHandle := h + 1 }
              if env.dialOk ctx.database = false then
                (GetResult.error GetErr.connectionFailed, s₂)
              else
                let s₃ := { s₂ with prismaClients := mapSet tenantId h s₂.prismaClients }
                let s₄ :=
                  if s₃.prismaClients.length > s₃.maxConnections
                  then evictOldestClient s₃ else s₃
                (GetResult.ok h, s₄)

/-- `disconnectTenant`: close and remove the pooled client if present. -/
def disconnectTenant (tenantId : String) (s : StratState) : StratState :=
  match mapGet tenantId s.prismaClients with
  | none => s
  | some h =>
      { s with closed := s.closed ++ [h]
               prismaClients := mapDelete tenantId s.prismaClients }

/-- Observable events of `disconnectAll`. -/
inductive ShutdownEvent where
  | closeHandle (h : Nat)
  | closeMaster
deriving DecidableEq

/-- `disconnectAll`: disconnect every pooled client (`Promise.all`), clear
the pool, then disconnect the master client. The trace records the handle
closes followed by the master close. -/
def disconnectAll (s : StratState) : StratState × List ShutdownEvent :=
  ({ s with
      closed := s.closed ++ s.prismaClients.map Prod.snd
      prismaClients := []
      masterClosed := true },
   s.prismaClients.map (fun p => ShutdownEvent.closeHandle p.2)
     ++ [ShutdownEvent.closeMaster])

/-- `clearCache`: delete one entry, or clear the whole cache. Pending
`setTimeout` deletions are NOT cancelled (the source keeps no handle). -/
def clearCache (tenantId : Option String) (s : StratState) : StratState :=
  match tenantId with
  | some tid => { s with tenantCache := mapDelete tid s.tenantCache }
  | none => { s with tenantCache := [] }

/-- Fire every pending `setTimeout` whose scheduled time has arrived: each
callback runs `tenantCache.delete(tenantId)` unconditionally. -/
def fireDueTimers (now : Nat) (s : StratState) : StratState :=
  { s with
    tenantCache :=
      (s.cacheTimers.filter (fun p => decide (p.2 ≤ now))).foldl
        (fun c p => mapDelete p.1 c) s.tenantCache
    cacheTimers := s.cacheTimers.filter (fun p => ! decide (p.2 ≤ now)) }

/-- `createTenantDatabase` (= the spec's `createStorage`): issue
`CREATE DATABASE "tenant_<id>"`; on success, allocate and immediately
disconnect a client for the new database (never pooled), then overwrite the
tenant record's `config` with `{ databaseUrl }` via `tenant.update`. Every
failure is caught and reported as `false`; `tenant.update` throws when the
record is absent. -/
def createTenantDatabase (env : Env) (tenantId : String) (s : StratState) :
    Bool × StratState :=
  let databaseName := "tenant_" ++ tenantId
  if env.exec (RawCmd.createDb databaseName) = false then (false, s)
  else
    let databaseUrl := getDatabaseUrlForTenant s tenantId
    let h := s.nextHandle
    let s₁ := { s with nextHandle := h + 1, closed := s.closed ++ [h] }
    match mapGet tenantId s₁.dir with
    | none => (false, s₁)
    | some r =>
        (true,
         { s₁ with
            dir := mapSet tenantId
              { r with config := [("databaseUrl", databaseUrl)] } s₁.dir })

/-- Observable events of `dropTenantDatabase`, in issue order. -/
inductive DropEvent where
  | closePooled (h : Nat)
  | terminateSessions (dbName : String)
  | dropCommand (dbName : String)
  | cacheInvalidate (tenantId : String)
deriving DecidableEq

/-- `dropTenantDatabase` (= the spec's `dropStorage`): disconnect and remove
the pooled client if present, terminate the other backend sessions on the
tenant's database, issue `DROP DATABASE IF EXISTS`, then delete the cached
context. A failing backend command is caught and reported as `false`. The
trace records the attempted steps in order. -/
def dropTenantDatabase (env : Env) (tenantId : String) (s : StratState) :
    Bool × StratState × List DropEvent :=
  let databaseName := "tenant_" ++ tenantId
  let step₁ :=
    match mapGet tenantId s.prismaClients with
    | none => (s, ([] : List DropEvent))
    | some h =>
        ({ s with closed := s.closed ++ [h]
                  prismaClients := mapDelete tenantId s.prismaClients },
         [DropEvent.closePooled h])
  let s₁ := step₁.1
  let tr₁ := step₁.2
  if env.exec (RawCmd.terminateSessions databaseName) = false then
    (false, s₁, tr₁ ++ [DropEvent.terminateSessions databaseName])
  else if env.exec (RawCmd.dropDb databaseName) = false then
    (false, s₁,
     tr₁ ++ [DropEvent.terminateSessions databaseName,
             DropEvent.dropCommand databaseName])
  else
    (true,
     { s₁ with tenantCache := mapDelete tenantId s₁.tenantCache },
     tr₁ ++ [DropEvent.terminateSessions databaseName,
             DropEvent.dropCommand databaseName,
             DropEvent.cacheInvalidate tenantId])

/-- `backupTenantDatabase`: a placeholder in the source — it only logs and
returns `true`; no backend command is issued and no state is touched. -/
def backupTenantDatabase (_tenantId _backupPath : String) (s : StratState) :
    Bool × StratState := (true, s)

/-- `restoreTenantDatabase`: a placeholder in the source — it only logs and
returns `true`; no backend command is issued and no state is touched. -/
def restoreTenantDatabase (_tenantId _backupPath : String) (s : StratState) :
    Bool × StratState := (true, s)

/-- `getActiveTenants`: the pooled tenant ids, in insertion order. -/
def getActiveTenants (s : StratState) : List String :=
  s.prismaClients.map Prod.fst

/-- Run a sequence of `getPrismaClient` calls, discarding the results. -/
def runAll (env : Env) (now : Nat) : List String → StratState → StratState
  | [], s => s
  | t :: ts, s => runAll env now ts (getPrismaClient env now t s).2

/-- An environment in which every backend command and every dial succeeds. -/
def envAll : Env := { exec := fun _ => true, dialOk := fun _ => true }

/-! ### Behaviour of `getTenantContext` -/

theorem getTenantContext_frame (now : Nat) (tid : String) (s : StratState) :
    ((getTenantContext now tid s).2).prismaClients = s.prismaClients ∧
    ((getTenantContext now tid s).2).closed = s.closed ∧
    ((getTenantContext now tid s).2).dir = s.dir ∧
    ((getTenantContext now tid s).2).nextHandle = s.nextHandle ∧
    ((getTenantContext now tid s).2).maxConnections = s.maxConnections ∧
    ((getTenantContext now tid s).2).databaseUrlTemplate = s.databaseUrlTemplate ∧
    ((getTenantContext now tid s).2).masterClosed = s.masterClosed := by
  unfold getTenantContext
  cases mapGet tid s.tenantCache with
  | some cached => exact ⟨rfl, rfl, rfl, rfl, rfl, rfl, rfl⟩
  | none =>
      cases mapGet tid s.dir with
      | none => exact ⟨rfl, rfl, rfl, rfl, rfl, rfl, rfl⟩
      | some r =>
          by_cases hr : r.isActive <;>
            simp [hr]

theorem getTenantContext_cache_hit {tid : String} {s : StratState}
    {c : TenantContext} (h : mapGet tid s.tenantCache = some c) (now : Nat) :
    getTenantContext now tid s = (some c, s) := by
  simp [getTenantContext, h]

theorem getTenantContext_miss_valid {tid : String} {s : StratState}
    {r : TenantRecord} (hc : mapGet tid s.tenantCache = none)
    (hd : mapGet tid s.dir = some r) (ha : r.isActive = true) (now : Nat) :
    getTenantContext now tid s =
      (some { id := tid, name := r.name, config := r.config
              database := contextUrl s tid },
       { s with
          tenantCache := mapSet tid
            { id := tid, name := r.name, config := r.config
              database := contextUrl s tid } s.tenantCache
          cacheTimers := s.cacheTimers ++ [(tid, now + s.cacheTtl)] }) := by
  simp [getTenantContext, hc, hd, ha]

theorem getTenantContext_invalid {tid : String} {s : StratState}
    (hc : mapGet tid s.tenantCache = none)
    (hd : ∀ r, mapGet tid s.dir = some r → r.isActive = false) (now : Nat) :
    getTenantContext now tid s = (none, s) := by
  unfold getTenantContext
  rw [hc]
  cases h : mapGet tid s.dir with
  | none => rfl
  | some r => simp [hd r h]

/-! ### Behaviour of `getPrismaClient` -/

theorem getPrismaClient_pool_hit {tid : String} {s : StratState} {h : Nat}
    (hp : mapGet tid s.prismaClients = some h) (env : Env) (now : Nat) :
    getPrismaClient env now tid s = (GetResult.ok h, s) := by
  simp [getPrismaClient, hp]

theorem getPrismaClient_invalid {tid : String} {s : StratState}
    (hp : mapGet tid s.prismaClients = none)
    (hv : validateTenant s tid = false) (env : Env) (now : Nat) :
    getPrismaClient env now tid s = (GetResult.error GetErr.invalidTenant, s) := by
  simp [getPrismaClient, hp, hv]

/-- The full success path on a pool and cache miss: the handle is the current
`nextHandle`, the context is cached with a new expiry timer, the new pool
entry is inserted, and the oldest entry is evicted iff the pool then exceeds
`maxConnections`. -/
theorem getPrismaClient_fresh_success {tid : String} {s : StratState}
    {r : TenantRecord} (hp : mapGet tid s.prismaClients = none)
    (hc : mapGet tid s.tenantCache = none)
    (hd : mapGet tid s.dir = some r) (ha : r.isActive = true)
    (hu : contextUrl s tid ≠ "") {env : Env}
    (hdial : env.dialOk (contextUrl s tid) = true) (now : Nat) :
    getPrismaClient env now tid s =
      (GetResult.ok s.nextHandle,
       let ctx : TenantContext :=
         { id := tid, name := r.name, config := r.config
           database := contextUrl s tid }
       let s₃ : StratState :=
         { s with
            tenantCache := mapSet tid ctx s.tenantCache
            cacheTimers := s.cacheTimers ++ [(tid, now + s.cacheTtl)]
            nextHandle := s.nextHandle + 1
            prismaClients := mapSet tid s.nextHandle s.prismaClients }
       if (mapSet tid s.nextHandle s.prismaClients).length > s.maxConnections
       then evictOldestClient s₃ else s₃) := by
  have hv : validateTenant s tid = true := by simp [validateTenant, hd, ha]
  simp only [getPrismaClient, hp, hv, Bool.true_eq_false, if_false,
    getTenantContext_miss_valid hc hd ha now, hu, if_neg hu, hdial]

/-- Unfolding of `getPrismaClient` when the context resolution fails. -/
theorem getPrismaClient_ctx_none {tid : String} {s s₁ : StratState}
    (hp : mapGet tid s.prismaClients = none)
    (hv : validateTenant s tid = true) (env : Env) {now : Nat}
    (hg : getTenantContext now tid s = (none, s₁)) :
    getPrismaClient env now tid s =
      (GetResult.error GetErr.noDatabaseConfigured, s₁) := by
  simp [getPrismaClient, hp, hv, hg]

/-- Unfolding of `getPrismaClient` when the resolved context carries an
empty connection descriptor (`!context.database`). -/
theorem getPrismaClient_ctx_emptyUrl {tid : String} {s s₁ : StratState}
    {ctx : TenantContext} (hp : mapGet tid s.prismaClients = none)
    (hv : validateTenant s tid = true) (env : Env) {now : Nat}
    (hg : getTenantContext now tid s = (some ctx, s₁))
    (hdb : ctx.database = "") :
    getPrismaClient env now tid s =
      (GetResult.error GetErr.noDatabaseConfigured, s₁) := by
  simp [getPrismaClient, hp, hv, hg, hdb]

/-- Unfolding of `getPrismaClient` when the dial fails. -/
theorem getPrismaClient_dial_fail {tid : String} {s s₁ : StratState}
    {ctx : TenantContext} (hp : mapGet tid s.prismaClients = none)
    (hv : validateTenant s tid = true) {env : Env} {now : Nat}
    (hg : getTenantContext now tid s = (some ctx, s₁))
    (hdb : ctx.database ≠ "") (hdial : env.dialOk ctx.database = false) :
    getPrismaClient env now tid s =
      (GetResult.error GetErr.connectionFailed,
       { s₁ with nextHandle := s₁.nextHandle + 1 }) := by
  simp [getPrismaClient, hp, hv, hg, hdb, hdial]

/-- Unfolding of `getPrismaClient` when the dial succeeds: the new entry is
inserted and the oldest entry evicted iff the pool then exceeds the cap. -/
theorem getPrismaClient_dial_ok {tid : String} {s s₁ : StratState}
    {ctx : TenantContext} (hp : mapGet tid s.prismaClients = none)
    (hv : validateTenant s tid = true) {env : Env} {now : Nat}
    (hg : getTenantContext now tid s = (some ctx, s₁))
    (hdb : ctx.database ≠ "") (hdial : env.dialOk ctx.database = true) :
    getPrismaClient env now tid s =
      (GetResult.ok s₁.nextHandle,
       if (mapSet tid s₁.nextHandle s₁.prismaClients).length > s₁.maxConnections
       then evictOldestClient
         { s₁ with nextHandle := s₁.nextHandle + 1
                   prismaClients := mapSet tid s₁.nextHandle s₁.prismaClients }
       else
         { s₁ with nextHandle := s₁.nextHandle + 1
                   prismaClients := mapSet tid s₁.nextHandle s₁.prismaClients }) := by
  simp [getPrismaClient, hp, hv, hg, hdb, hdial]

/-- Configuration, directory and master-connection state are never touched
by `getPrismaClient`. -/
theorem getPrismaClient_config_frame (env : Env) (now : Nat) (tid : String)
    (s : StratState) :
    ((getPrismaClient env now tid s).2).dir = s.dir ∧
    ((getPrismaClient env now tid s).2).databaseUrlTemplate = s.databaseUrlTemplate ∧
    ((getPrismaClient env now tid s).2).maxConnections = s.maxConnections ∧
    ((getPrismaClient env now tid s).2).masterClosed = s.masterClosed := by
  have hf := getTenantContext_frame now tid s
  cases hp : mapGet tid s.prismaClients with
  | some h => rw [getPrismaClient_pool_hit hp env now]; exact ⟨rfl, rfl, rfl, rfl⟩
  | none =>
      by_cases hv : validateTenant s tid = false
      · rw [getPrismaClient_invalid hp hv env now]; exact ⟨rfl, rfl, rfl, rfl⟩
      · have hv' : validateTenant s tid = true := by simpa using hv
        rcases hg : getTenantContext now tid s with ⟨opt, s₁⟩
        rw [hg] at hf
        have hdir : s₁.dir = s.dir := hf.2.2.1
        have hmax : s₁.maxConnections = s.maxConnections := hf.2.2.2.2.1
        have htpl : s₁.databaseUrlTemplate = s.databaseUrlTemplate :=
          hf.2.2.2.2.2.1
        have hmc : s₁.masterClosed = s.masterClosed := hf.2.2.2.2.2.2
        cases opt with
        | none =>
            rw [getPrismaClient_ctx_none hp hv' env hg]
            exact ⟨hdir, htpl, hmax, hmc⟩
        | some ctx =>
            by_cases hdb : ctx.database = ""
            · rw [getPrismaClient_ctx_emptyUrl hp hv' env hg hdb]
              exact ⟨hdir, htpl, hmax, hmc⟩
            · by_cases hdial : env.dialOk ctx.database = false
              · rw [getPrismaClient_dial_fail hp hv' hg hdb hdial]
                exact ⟨hdir, htpl, hmax, hmc⟩
              · have hdial' : env.dialOk ctx.database = true := by
                  simpa using hdial
                rw [getPrismaClient_dial_ok hp hv' hg hdb hdial']
                by_cases hlen :
                    (mapSet tid s₁.nextHandle s₁.prismaClients).length
                      > s₁.maxConnections
                · rw [if_pos hlen]
                  unfold evictOldestClient
                  split <;> exact ⟨hdir, htpl, hmax, hmc⟩
                · rw [if_neg hlen]
                  exact ⟨hdir, htpl, hmax, hmc⟩

/-- `evictOldestClient` removes the first-inserted pool entry. -/
theorem evictOldestClient_pool (s : StratState) :
    (evictOldestClient s).prismaClients = s.prismaClients.tail := by
  cases hps : s.prismaClients with
  | nil => simp [evictOldestClient, hps]
  | cons p rest => obtain ⟨a, b⟩ := p; simp [evictOldestClient, hps]

/-- `evictOldestClient` closes exactly the first-inserted entry's handle. -/
theorem evictOldestClient_closed (s : StratState) :
    (evictOldestClient s).closed =
      s.closed ++ (s.prismaClients.head?.map Prod.snd).toList := by
  cases hps : s.prismaClients with
  | nil => simp [evictOldestClient, hps]
  | cons p rest => obtain ⟨a, b⟩ := p; simp [evictOldestClient, hps]

/-- Claim C9 core: every failing `getPrismaClient` call leaves the pool map
and the set of closed handles exactly as they were. -/
theorem getPrismaClient_error_frame {env : Env} {now : Nat} {tid : String}
    {s : StratState} {e : GetErr}
    (h : (getPrismaClient env now tid s).1 = GetResult.error e) :
    ((getPrismaClient env now tid s).2).prismaClients = s.prismaClients ∧
    ((getPrismaClient env now tid s).2).closed = s.closed := by
  have hf := getTenantContext_frame now tid s
  cases hp : mapGet tid s.prismaClients with
  | some hh =>
      rw [getPrismaClient_pool_hit hp env now] at h
      exact absurd h (by simp)
  | none =>
      by_cases hv : validateTenant s tid = false
      · rw [getPrismaClient_invalid hp hv env now]; exact ⟨rfl, rfl⟩
      · have hv' : validateTenant s tid = true := by simpa using hv
        rcases hg : getTenantContext now tid s with ⟨opt, s₁⟩
        rw [hg] at hf
        have hpc : s₁.prismaClients = s.prismaClients := hf.1
        have hcl : s₁.closed = s.closed := hf.2.1
        cases opt with
        | none =>
            rw [getPrismaClient_ctx_none hp hv' env hg]
            exact ⟨hpc, hcl⟩
        | some ctx =>
            by_cases hdb : ctx.database = ""
            · rw [getPrismaClient_ctx_emptyUrl hp hv' env hg hdb]
              exact ⟨hpc, hcl⟩
            · by_cases hdial : env.dialOk ctx.database = false
              · rw [getPrismaClient_dial_fail hp hv' hg hdb hdial]
                exact ⟨hpc, hcl⟩
              · have hdial' : env.dialOk ctx.database = true := by
                  simpa using hdial
                rw [getPrismaClient_dial_ok hp hv' hg hdb hdial'] at h
                simp at h

/-- Case description of `getPrismaClient`'s effect on the pool: either the
pool is untouched, or the tenant was validated and a fresh entry was
appended, possibly followed by eviction of the first (oldest) entry. -/
theorem getPrismaClient_pool_shape (env : Env) (now : Nat) (tid : String)
    (s : StratState) :
    (((getPrismaClient env now tid s).2).prismaClients = s.prismaClients) ∨
    (validateTenant s tid = true ∧ mapGet tid s.prismaClients = none ∧
     ∃ h, ((mapSet tid h s.prismaClients).length ≤ s.maxConnections ∧
           ((getPrismaClient env now tid s).2).prismaClients
             = mapSet tid h s.prismaClients) ∨
          ((getPrismaClient env now tid s).2).prismaClients
             = (mapSet tid h s.prismaClients).tail) := by
  have hf := getTenantContext_frame now tid s
  cases hp : mapGet tid s.prismaClients with
  | some h => rw [getPrismaClient_pool_hit hp env now]; exact Or.inl rfl
  | none =>
      by_cases hv : validateTenant s tid = false
      · rw [getPrismaClient_invalid hp hv env now]; exact Or.inl rfl
      · have hv' : validateTenant s tid = true := by simpa using hv
        rcases hg : getTenantContext now tid s with ⟨opt, s₁⟩
        rw [hg] at hf
        have hpc : s₁.prismaClients = s.prismaClients := hf.1
        cases opt with
        | none =>
            rw [getPrismaClient_ctx_none hp hv' env hg]
            exact Or.inl hpc
        | some ctx =>
            by_cases hdb : ctx.database = ""
            · rw [getPrismaClient_ctx_emptyUrl hp hv' env hg hdb]
              exact Or.inl hpc
            · by_cases hdial : env.dialOk ctx.database = false
              · rw [getPrismaClient_dial_fail hp hv' hg hdb hdial]
                exact Or.inl hpc
              · have hdial' : env.dialOk ctx.database = true := by
                  simpa using hdial
                rw [getPrismaClient_dial_ok hp hv' hg hdb hdial']
                have hmax : s₁.maxConnections = s.maxConnections :=
                  hf.2.2.2.2.1
                refine Or.inr ⟨hv', rfl, s₁.nextHandle, ?_⟩
                by_cases hlen :
                    (mapSet tid s₁.nextHandle s₁.prismaClients).length
                      > s₁.maxConnections
                · rw [if_pos hlen, evictOldestClient_pool]
                  right
                  rw [hpc]
                · rw [if_neg hlen]
                  left
                  rw [hpc] at hlen ⊢
                  rw [hmax] at hlen
                  exact ⟨Nat.le_of_not_lt hlen, rfl⟩

theorem not_mem_of_mapGet_eq_none {α : Type} {k : String} {m : JsMap α}
    (h : mapGet k m = none) : k ∉ m.map Prod.fst := by
  induction m with
  | nil => simp
  | cons hd tl ih =>
      obtain ⟨k₀, v₀⟩ := hd
      by_cases h₀ : k₀ = k
      · subst h₀; simp [mapGet] at h
      · simp only [mapGet, if_neg h₀] at h
        simp only [List.map_cons, List.mem_cons]
        push_neg
        exact ⟨Ne.symm h₀, ih h⟩

theorem mem_of_mapGet_some {α : Type} {k : String} {m : JsMap α} {v : α}
    (h : mapGet k m = some v) : (k, v) ∈ m := by
  induction m with
  | nil => simp [mapGet] at h
  | cons hd tl ih =>
      obtain ⟨k₀, v₀⟩ := hd
      by_cases h₀ : k₀ = k
      · subst h₀
        have hv : v₀ = v := by simpa [mapGet] using h
        subst hv
        exact List.mem_cons_self _ _
      · simp only [mapGet, if_neg h₀] at h
        exact List.mem_cons_of_mem _ (ih h)

/-- Claim C1 part (a): a `getPrismaClient` call never leaves the pool above
the configured maximum, provided it was within the bound before the call. -/
theorem getPrismaClient_size_bound (env : Env) (now : Nat) (tid : String)
    (s : StratState) (hb : s.prismaClients.length ≤ s.maxConnections) :
    ((getPrismaClient env now tid s).2).prismaClients.length
      ≤ s.maxConnections := by
  rcases getPrismaClient_pool_shape env now tid s with hsame | ⟨-, hp, h, hcase⟩
  · rw [hsame]; exact hb
  · rcases hcase with ⟨hle, heq⟩ | htail
    · rw [heq]; exact hle
    · rw [htail]
      have hfresh : mapSet tid h s.prismaClients
          = s.prismaClients ++ [(tid, h)] := mapSet_fresh h hp
      rw [List.length_tail, hfresh, List.length_append]
      simpa using hb

/-! ### Effects of the remaining operations -/

theorem disconnectTenant_effects (tid : String) (s : StratState) :
    (disconnectTenant tid s).dir = s.dir ∧
    ((disconnectTenant tid s).prismaClients = s.prismaClients ∨
     (disconnectTenant tid s).prismaClients = mapDelete tid s.prismaClients) := by
  unfold disconnectTenant
  cases mapGet tid s.prismaClients <;> simp

theorem createTenantDatabase_effects (env : Env) (tid : String) (s : StratState) :
    (createTenantDatabase env tid s).2.prismaClients = s.prismaClients ∧
    ((createTenantDatabase env tid s).2.dir = s.dir ∨
     ∃ r, mapGet tid s.dir = some r ∧
       (createTenantDatabase env tid s).2.dir =
         mapSet tid
           { r with config :=
               [("databaseUrl", getDatabaseUrlForTenant s tid)] } s.dir) := by
  unfold createTenantDatabase
  by_cases hexec : env.exec (RawCmd.createDb ("tenant_" ++ tid)) = false
  · simp [hexec]
  · rw [if_neg hexec]
    cases hdir : mapGet tid s.dir with
    | none => simp [hdir]
    | some r =>
        refine ⟨by simp [hdir], Or.inr ⟨r, rfl, ?_⟩⟩
        simp [hdir]

theorem dropTenantDatabase_effects (env : Env) (tid : String) (s : StratState) :
    (dropTenantDatabase env tid s).2.1.dir = s.dir ∧
    ((dropTenantDatabase env tid s).2.1.prismaClients = s.prismaClients ∨
     (dropTenantDatabase env tid s).2.1.prismaClients
       = mapDelete tid s.prismaClients) := by
  unfold dropTenantDatabase
  cases mapGet tid s.prismaClients <;>
    by_cases ht : env.exec (RawCmd.terminateSessions ("tenant_" ++ tid)) = false <;>
      by_cases hd : env.exec (RawCmd.dropDb ("tenant_" ++ tid)) = false <;>
        simp [ht, hd]

/-! ### Reachable states and the pool invariant -/

/-- One public operation of the strategy, under an arbitrary backend
environment and clock. -/
inductive Step : StratState → StratState → Prop where
  | getClient (env : Env) (now : Nat) (tid : String) (s : StratState) :
      Step s (getPrismaClient env now tid s).2
  | getContext (now : Nat) (tid : String) (s : StratState) :
      Step s (getTenantContext now tid s).2
  | disconnectOne (tid : String) (s : StratState) :
      Step s (disconnectTenant tid s)
  | disconnectEverything (s : StratState) : Step s (disconnectAll s).1
  | clear (tid : Option String) (s : StratState) : Step s (clearCache tid s)
  | timers (now : Nat) (s : StratState) : Step s (fireDueTimers now s)
  | create (env : Env) (tid : String) (s : StratState) :
      Step s (createTenantDatabase env tid s).2
  | drop (env : Env) (tid : String) (s : StratState) :
      Step s (dropTenantDatabase env tid s).2.1
  | backup (tid path : String) (s : StratState) :
      Step s (backupTenantDatabase tid path s).2
  | restore (tid path : String) (s : StratState) :
      Step s (restoreTenantDatabase tid path s).2

/-- States reachable from a freshly constructed strategy instance by the
strategy's own public operations (the directory is mutated only by
`createTenantDatabase`, which never changes `isActive`). -/
inductive Reachable (cfg : SeparateDatabaseConfig)
    (dir₀ : JsMap TenantRecord) : StratState → Prop where
  | init : Reachable cfg dir₀ (mkStrategy cfg dir₀)
  | step {s s' : StratState} : Reachable cfg dir₀ s → Step s s' →
      Reachable cfg dir₀ s'

/-- Pool healthiness: pooled tenant ids are pairwise distinct and every
pooled tenant has an active record in the directory. -/
def PoolInv (s : StratState) : Prop :=
  (s.prismaClients.map Prod.fst).Nodup ∧
  ∀ p ∈ s.prismaClients, ∃ r, mapGet p.1 s.dir = some r ∧ r.isActive = true

theorem poolInv_step {s s' : StratState} (hstep : Step s s')
    (hinv : PoolInv s) : PoolInv s' := by
  obtain ⟨hnd, hmem⟩ := hinv
  cases hstep with
  | getClient env now tid s =>
      have hdir := (getPrismaClient_config_frame env now tid s).1
      rcases getPrismaClient_pool_shape env now tid s with hsame | ⟨hv, hp, h, hcase⟩
      · rw [PoolInv, hsame, hdir]; exact ⟨hnd, hmem⟩
      · have hfresh : mapSet tid h s.prismaClients
            = s.prismaClients ++ [(tid, h)] := mapSet_fresh h hp
        have hvr : ∃ r, mapGet tid s.dir = some r ∧ r.isActive = true := by
          unfold validateTenant at hv
          cases hd : mapGet tid s.dir with
          | none => rw [hd] at hv; exact absurd hv (by simp)
          | some r => rw [hd] at hv; exact ⟨r, rfl, hv⟩
        have hmem' : ∀ p ∈ mapSet tid h s.prismaClients,
            ∃ r, mapGet p.1 s.dir = some r ∧ r.isActive = true := by
          intro p hpmem
          rw [hfresh] at hpmem
          rcases List.mem_append.mp hpmem with hold | hnew
          · exact hmem p hold
          · rcases List.mem_singleton.mp hnew with rfl
            exact hvr
        have hnd' : ((mapSet tid h s.prismaClients).map Prod.fst).Nodup :=
          nodup_map_fst_mapSet tid h s.prismaClients hnd
        rcases hcase with ⟨-, heq⟩ | htail
        · rw [PoolInv, heq, hdir]; exact ⟨hnd', hmem'⟩
        · rw [PoolInv, htail, hdir]
          constructor
          · exact hnd'.sublist ((List.tail_sublist _).map Prod.fst)
          · intro p hpmem
            exact hmem' p (List.mem_of_mem_tail hpmem)
  | getContext now tid s =>
      have hf := getTenantContext_frame now tid s
      rw [PoolInv, hf.1, hf.2.2.1]; exact ⟨hnd, hmem⟩
  | disconnectOne tid s =>
      obtain ⟨hdir, hpool⟩ := disconnectTenant_effects tid s
      rcases hpool with hsame | hdel
      · rw [PoolInv, hsame, hdir]; exact ⟨hnd, hmem⟩
      · rw [PoolInv, hdel, hdir]
        exact ⟨nodup_map_fst_mapDelete tid _ hnd,
               fun p hp => hmem p (mem_mapDelete_subset hp)⟩
  | disconnectEverything s =>
      rw [PoolInv]
      simp [disconnectAll]
  | clear tid s =>
      cases tid with
      | none => exact ⟨hnd, hmem⟩
      | some t => exact ⟨hnd, hmem⟩
  | timers now s =>
      exact ⟨hnd, hmem⟩
  | create env tid s =>
      obtain ⟨hpool, hdir⟩ := createTenantDatabase_effects env tid s
      rcases hdir with hsame | ⟨r, hget, hset⟩
      · rw [PoolInv, hpool, hsame]; exact ⟨hnd, hmem⟩
      · rw [PoolInv, hpool, hset]
        refine ⟨hnd, fun p hp => ?_⟩
        obtain ⟨rp, hrp, hact⟩ := hmem p hp
        rw [mapGet_mapSet]
        by_cases heq : tid = p.1
        · rw [if_pos heq]
          refine ⟨_, rfl, ?_⟩
          have hr : rp = r := by
            rw [← heq] at hrp
            rw [hget] at hrp
            exact (Option.some.inj hrp).symm
          subst hr
          simpa using hact
        · rw [if_neg heq]
          exact ⟨rp, hrp, hact⟩
  | drop env tid s =>
      obtain ⟨hdir, hpool⟩ := dropTenantDatabase_effects env tid s
      rcases hpool with hsame | hdel
      · rw [PoolInv, hsame, hdir]; exact ⟨hnd, hmem⟩
      · rw [PoolInv, hdel, hdir]
        exact ⟨nodup_map_fst_mapDelete tid _ hnd,
               fun p hp => hmem p (mem_mapDelete_subset hp)⟩
  | backup tid path s => exact ⟨hnd, hmem⟩
  | restore tid path s => exact ⟨hnd, hmem⟩

/-- Every reachable state satisfies the pool invariant. -/
theorem reachable_poolInv {cfg : SeparateDatabaseConfig}
    {dir₀ : JsMap TenantRecord} {s : StratState}
    (hr : Reachable cfg dir₀ s) : PoolInv s := by
  induction hr with
  | init => exact ⟨List.nodup_nil, by simp [mkStrategy]⟩
  | step hr hstep ih => exact poolInv_step hstep ih

/-- `contextUrl` depends only on the directory and the template. -/
theorem contextUrl_congr {s s' : StratState} (hdir : s'.dir = s.dir)
    (htpl : s'.databaseUrlTemplate = s.databaseUrlTemplate) (tid : String) :
    contextUrl s' tid = contextUrl s tid := by
  unfold contextUrl getDatabaseUrlForTenant
  rw [hdir, htpl]

theorem mapGet_append_ne {α : Type} {t k : String} (v : α) (m : JsMap α)
    (h : k ≠ t) : mapGet t (m ++ [(k, v)]) = mapGet t m := by
  induction m with
  | nil => simp [mapGet, h]
  | cons hd tl ih =>
      obtain ⟨k₀, v₀⟩ := hd
      by_cases h₀ : k₀ = t <;> simp [mapGet, h₀, ih]

/-- A fresh, valid, resolvable `getPrismaClient` call with spare capacity:
the new entry is appended, nothing is evicted or closed. -/
theorem getPrismaClient_fresh_no_evict
    {tid : String} {s : StratState} {r : TenantRecord} {env : Env}
    (hp : mapGet tid s.prismaClients = none)
    (hc : mapGet tid s.tenantCache = none)
    (hd : mapGet tid s.dir = some r) (ha : r.isActive = true)
    (hu : contextUrl s tid ≠ "")
    (hdial : env.dialOk (contextUrl s tid) = true)
    (hcap : s.prismaClients.length + 1 ≤ s.maxConnections) (now : Nat) :
    getPrismaClient env now tid s =
      (GetResult.ok s.nextHandle,
       { s with
          tenantCache := mapSet tid
            { id := tid, name := r.name, config := r.config
              database := contextUrl s tid } s.tenantCache
          cacheTimers := s.cacheTimers ++ [(tid, now + s.cacheTtl)]
          nextHandle := s.nextHandle + 1
          prismaClients := s.prismaClients ++ [(tid, s.nextHandle)] }) := by
  have hg := getTenantContext_miss_valid hc hd ha now
  have hv : validateTenant s tid = true := by simp [validateTenant, hd, ha]
  rw [getPrismaClient_dial_ok hp hv hg hu hdial]
  have hlen : ¬ (mapSet tid s.nextHandle s.prismaClients).length
      > s.maxConnections := by
    rw [mapSet_fresh _ hp, List.length_append]
    simp only [List.length_singleton]
    omega
  rw [if_neg hlen, mapSet_fresh _ hp]

/-- A fresh, valid, resolvable `getPrismaClient` call on a full pool: the
new entry is appended and the first-inserted (oldest) entry is evicted and
its handle closed. -/
theorem getPrismaClient_fresh_evict
    {tid : String} {s : StratState} {r : TenantRecord} {env : Env}
    (hp : mapGet tid s.prismaClients = none)
    (hc : mapGet tid s.tenantCache = none)
    (hd : mapGet tid s.dir = some r) (ha : r.isActive = true)
    (hu : contextUrl s tid ≠ "")
    (hdial : env.dialOk (contextUrl s tid) = true)
    (hcap : s.prismaClients.length + 1 > s.maxConnections) (now : Nat) :
    (getPrismaClient env now tid s).1 = GetResult.ok s.nextHandle ∧
    (getPrismaClient env now tid s).2.prismaClients
        = (s.prismaClients ++ [(tid, s.nextHandle)]).tail ∧
    (getPrismaClient env now tid s).2.closed
        = s.closed ++
            (((s.prismaClients ++ [(tid, s.nextHandle)]).head?.map
                Prod.snd).toList) := by
  have hg := getTenantContext_miss_valid hc hd ha now
  have hv : validateTenant s tid = true := by simp [validateTenant, hd, ha]
  rw [getPrismaClient_dial_ok hp hv hg hu hdial]
  have hlen : (mapSet tid s.nextHandle s.prismaClients).length
      > s.maxConnections := by
    rw [mapSet_fresh _ hp, List.length_append]
    simp only [List.length_singleton]
    omega
  rw [if_pos hlen]
  refine ⟨rfl, ?_, ?_⟩
  · rw [evictOldestClient_pool]
    simp only [mapSet_fresh _ hp]
  · rw [evictOldestClient_closed]
    simp only [mapSet_fresh _ hp]

/-- Running `getPrismaClient` over a list of pairwise-distinct, fresh,
valid, resolvable tenants that fits in the remaining capacity appends the
entries in call order with consecutive handles, closing nothing. -/
theorem runAll_fresh (env : Env) (now : Nat) :
    ∀ (ts : List String) (s : StratState), ts.Nodup →
      (∀ t ∈ ts, mapGet t s.prismaClients = none) →
      (∀ t ∈ ts, mapGet t s.tenantCache = none) →
      (∀ t ∈ ts, ∃ r, mapGet t s.dir = some r ∧ r.isActive = true) →
      (∀ t ∈ ts, contextUrl s t ≠ "" ∧ env.dialOk (contextUrl s t) = true) →
      s.prismaClients.length + ts.length ≤ s.maxConnections →
      (runAll env now ts s).prismaClients
          = s.prismaClients ++ ts.zip (List.range' s.nextHandle ts.length) ∧
      (runAll env now ts s).closed = s.closed ∧
      (runAll env now ts s).nextHandle = s.nextHandle + ts.length ∧
      (runAll env now ts s).dir = s.dir ∧
      (runAll env now ts s).maxConnections = s.maxConnections ∧
      (runAll env now ts s).databaseUrlTemplate = s.databaseUrlTemplate ∧
      (runAll env now ts s).cacheTtl = s.cacheTtl ∧
      (∀ t, t ∉ ts →
        mapGet t (runAll env now ts s).tenantCache = mapGet t s.tenantCache)
  | [], s => by
      intro _ _ _ _ _ _
      simp [runAll]
  | t₀ :: ts, s => by
      intro hnd hpool hcache hdir hurl hcap
      obtain ⟨r₀, hr₀, ha₀⟩ := hdir t₀ (List.mem_cons_self _ _)
      obtain ⟨hu₀, hdial₀⟩ := hurl t₀ (List.mem_cons_self _ _)
      have hstep := getPrismaClient_fresh_no_evict
        (hpool t₀ (List.mem_cons_self _ _)) (hcache t₀ (List.mem_cons_self _ _))
        hr₀ ha₀ hu₀ hdial₀
        (by simp only [List.length_cons] at hcap; omega) now
      have hnotmem : t₀ ∉ ts := (List.nodup_cons.mp hnd).1
      set ctx₀ : TenantContext :=
        { id := t₀, name := r₀.name, config := r₀.config
          database := contextUrl s t₀ } with hctx₀
      set s' : StratState :=
        { s with
           tenantCache := mapSet t₀ ctx₀ s.tenantCache
           cacheTimers := s.cacheTimers ++ [(t₀, now + s.cacheTtl)]
           nextHandle := s.nextHandle + 1
           prismaClients := s.prismaClients ++ [(t₀, s.nextHandle)] } with hs'
      have hrun : runAll env now (t₀ :: ts) s = runAll env now ts s' := by
        simp [runAll, hstep, hs']
      have hcongr : ∀ t, contextUrl s' t = contextUrl s t := fun t =>
        contextUrl_congr (by rw [hs']) (by rw [hs']) t
      have ih := runAll_fresh env now ts s' (List.nodup_cons.mp hnd).2
        (fun t ht => by
          rw [hs']
          exact (mapGet_append_ne _ _
              (fun he => hnotmem (by rw [he]; exact ht))).trans
            (hpool t (List.mem_cons_of_mem _ ht)))
        (fun t ht => by
          rw [hs']
          exact (mapGet_mapSet_ne _ _
              (fun he => hnotmem (by rw [he]; exact ht))).trans
            (hcache t (List.mem_cons_of_mem _ ht)))
        (fun t ht => by
          rw [hs']
          exact hdir t (List.mem_cons_of_mem _ ht))
        (fun t ht => by
          rw [hcongr t]
          exact hurl t (List.mem_cons_of_mem _ ht))
        (by
          rw [hs']
          simp only [List.length_append, List.length_singleton,
            List.length_cons, List.length_nil] at hcap ⊢
          omega)
      obtain ⟨ihpool, ihclosed, ihnext, ihdir, ihmax, ihtpl, ihttl, ihcache⟩ := ih
      rw [hrun]
      refine ⟨?_, ?_, ?_, ?_, ?_, ?_, ?_, ?_⟩
      · rw [ihpool, hs']
        simp only [List.length_cons, List.range'_succ, List.zip_cons_cons,
          List.append_assoc, List.singleton_append]
      · rw [ihclosed, hs']
      · rw [ihnext, hs']
        simp only [List.length_cons]
        omega
      · rw [ihdir, hs']
      · rw [ihmax, hs']
      · rw [ihtpl, hs']
      · rw [ihttl, hs']
      · intro t ht
        have ht₀ : t ≠ t₀ := fun he => ht (he ▸ List.mem_cons_self _ _)
        have hts : t ∉ ts := fun hm => ht (List.mem_cons_of_mem _ hm)
        rw [ihcache t hts, hs']
        exact mapGet_mapSet_ne _ _ (Ne.symm ht₀)

theorem runAll_append (env : Env) (now : Nat) (l₁ l₂ : List String) :
    ∀ s : StratState,
      runAll env now (l₁ ++ l₂) s = runAll env now l₂ (runAll env now l₁ s) := by
  induction l₁ with
  | nil => intro s; rfl
  | cons t ts ih =>
      intro s
      simp only [List.cons_append, runAll]
      exact ih _

/-- Claim C1: with `maxConnections = N ≥ 1`, (a) no `getPrismaClient` call
takes the pool above `N` entries, and (b) after `N + 1` successful calls
for distinct fresh tenants `t1 .. t(N+1)` on a new instance, the pool holds
exactly `t2 .. t(N+1)` in insertion order, and the one closed handle is
handle `0` — `t1`'s, the first-inserted (FIFO, not least-recently-used). -/
theorem c1_pool_bounded_fifo
    (mu : String) (tpl : Option String) (N ttl : Nat) (hN : 1 ≤ N)
    (dir₀ : JsMap TenantRecord) (env : Env) (now : Nat)
    (ts : List String) (hndup : ts.Nodup) (hlen : ts.length = N + 1)
    (hvalid : ∀ t ∈ ts, ∃ r, mapGet t dir₀ = some r ∧ r.isActive = true)
    (hurl : ∀ t ∈ ts,
      contextUrl (mkStrategy ⟨mu, tpl, some N, some ttl⟩ dir₀) t ≠ "" ∧
      env.dialOk (contextUrl (mkStrategy ⟨mu, tpl, some N, some ttl⟩ dir₀) t)
        = true) :
    (∀ (s : StratState) (tid : String),
        s.prismaClients.length ≤ s.maxConnections →
        ((getPrismaClient env now tid s).2).prismaClients.length
          ≤ s.maxConnections) ∧
    getActiveTenants
        (runAll env now ts (mkStrategy ⟨mu, tpl, some N, some ttl⟩ dir₀))
      = ts.tail ∧
    (runAll env now ts (mkStrategy ⟨mu, tpl, some N, some ttl⟩ dir₀)).closed
      = [0] := by
  refine ⟨fun s tid hb => getPrismaClient_size_bound env now tid s hb, ?_⟩
  set s0 : StratState := mkStrategy ⟨mu, tpl, some N, some ttl⟩ dir₀ with hs0
  have hN0 : N ≠ 0 := by omega
  have hmax : s0.maxConnections = N := by
    rw [hs0]; simp [mkStrategy, jsOrNat, hN0]
  rcases List.eq_nil_or_concat ts with rfl | ⟨front, last, rfl⟩
  · simp at hlen
  simp only [List.concat_eq_append] at hndup hlen hvalid hurl ⊢
  have hfrontlen : front.length = N := by simpa using hlen
  cases front with
  | nil => rw [List.length_nil] at hfrontlen; omega
  | cons f₀ front' =>
    have hmemF : ∀ t ∈ f₀ :: front', t ∈ (f₀ :: front') ++ [last] :=
      fun t ht => List.mem_append_left _ ht
    have hmemL : last ∈ (f₀ :: front') ++ [last] :=
      List.mem_append_right _ (List.mem_singleton_self _)
    have hndF : (f₀ :: front').Nodup :=
      hndup.sublist (List.sublist_append_left _ _)
    have hlastF : last ∉ f₀ :: front' := by
      intro hmem
      exact (List.nodup_append.mp hndup).2.2 hmem (List.mem_singleton_self _)
    have h1 := runAll_fresh env now (f₀ :: front') s0 hndF
      (fun t _ => rfl) (fun t _ => rfl)
      (fun t ht => hvalid t (hmemF t ht))
      (fun t ht => hurl t (hmemF t ht))
      (by
        rw [hmax]
        have h0 : s0.prismaClients.length = 0 := rfl
        rw [h0, hfrontlen]
        omega)
    obtain ⟨hpool1, hclosed1, hnext1, hdir1, hmax1, htpl1, httl1, hcache1⟩ := h1
    set s₁ : StratState := runAll env now (f₀ :: front') s0 with hs₁
    have hnh0 : s0.nextHandle = 0 := rfl
    have hnh1 : s₁.nextHandle = N := by
      rw [hnext1, hnh0, hfrontlen]
      omega
    have hpool1' : s₁.prismaClients = (f₀ :: front').zip (List.range' 0 N) := by
      have h0 : s0.prismaClients = [] := rfl
      rw [hpool1, h0, hnh0, hfrontlen, List.nil_append]
    have hlenpool1 : s₁.prismaClients.length = N := by
      rw [hpool1', List.length_zip, List.length_range', hfrontlen]
      omega
    have hp_last : mapGet last s₁.prismaClients = none := by
      apply mapGet_eq_none_of_not_mem
      rw [hpool1', List.map_fst_zip _ _
        (by rw [List.length_range', hfrontlen])]
      exact hlastF
    have hc_last : mapGet last s₁.tenantCache = none := by
      rw [hcache1 last hlastF]
      rfl
    obtain ⟨rL, hrL, haL⟩ := hvalid last hmemL
    have hdirS1 : s₁.dir = dir₀ := by rw [hdir1]; rfl
    have hd_last : mapGet last s₁.dir = some rL := by rw [hdirS1]; exact hrL
    have hctxL : contextUrl s₁ last = contextUrl s0 last :=
      contextUrl_congr (by rw [hdir1]) (by rw [htpl1]) last
    have hu_last : contextUrl s₁ last ≠ "" := by
      rw [hctxL]; exact (hurl last hmemL).1
    have hdial_last : env.dialOk (contextUrl s₁ last) = true := by
      rw [hctxL]; exact (hurl last hmemL).2
    have hcap : s₁.prismaClients.length + 1 > s₁.maxConnections := by
      rw [hlenpool1, hmax1, hmax]
      omega
    have hfinal := getPrismaClient_fresh_evict hp_last hc_last hd_last haL
      hu_last hdial_last hcap now
    have hsplit : runAll env now ((f₀ :: front') ++ [last]) s0
        = (getPrismaClient env now last s₁).2 := by
      rw [runAll_append]
      rfl
    have hNM : N = front'.length + 1 := by
      simp only [List.length_cons] at hfrontlen
      omega
    have hzip : (f₀ :: front').zip (List.range' 0 N)
        = (f₀, 0) :: front'.zip (List.range' 1 front'.length) := by
      rw [hNM, List.range'_succ]
      rfl
    have hclosed0 : s₁.closed = [] := by rw [hclosed1]; rfl
    constructor
    · rw [hsplit]
      unfold getActiveTenants
      rw [hfinal.2.1, hpool1', hnh1, hzip]
      rw [List.cons_append, List.tail_cons, List.map_append,
        List.map_fst_zip _ _ (by rw [List.length_range'])]
      rfl
    · rw [hsplit, hfinal.2.2, hpool1', hnh1, hzip, hclosed0]
      rfl

/-- Claim C2: over every reachable state of a strategy instance, if a
tenant id is absent from the directory or its record has `isActive = false`,
then `getPrismaClient` fails with the `Invalid tenant` error (the spec's
`NotFoundError`) and the state — in particular the pool — is unchanged: no
pool entry is created for that tenant. -/
theorem c2_inactive_or_absent_notFound {cfg : SeparateDatabaseConfig}
    {dir₀ : JsMap TenantRecord} {s : StratState}
    (hr : Reachable cfg dir₀ s) {tid : String}
    (hbad : ∀ r, mapGet tid s.dir = some r → r.isActive = false)
    (env : Env) (now : Nat) :
    getPrismaClient env now tid s
      = (GetResult.error GetErr.invalidTenant, s) := by
  have hv : validateTenant s tid = false := by
    unfold validateTenant
    cases hd : mapGet tid s.dir with
    | none => rfl
    | some r => exact hbad r hd
  have hp : mapGet tid s.prismaClients = none := by
    cases hpc : mapGet tid s.prismaClients with
    | none => rfl
    | some h =>
        obtain ⟨-, hmem⟩ := reachable_poolInv hr
        obtain ⟨r, hget, hact⟩ := hmem (tid, h) (mem_of_mapGet_some hpc)
        rw [hbad r hget] at hact
        exact absurd hact (by simp)
  exact getPrismaClient_invalid hp hv env now

/-! ### Claim C3: the stale-timer scenario

`getTenantContext` schedules `setTimeout(() => this.tenantCache.delete(id),
cacheTtl)` but never stores the returned timer handle, so neither a later
insertion for the same id nor `clearCache` can cancel it. The concrete
timeline below exhibits a stale callback evicting a newer entry. -/

/-- Directory with a single active tenant, used in the C3 timeline. -/
def c3Dir : JsMap TenantRecord :=
  [("acme", { name := "Acme", isActive := true
              config := [("databaseUrl", "db://acme")] })]

/-- A strategy instance with `cacheTtl = 10`. -/
def c3S0 : StratState :=
  mkStrategy { masterDatabaseUrl := "db://m/x", cacheTtl := some 10 } c3Dir

/-- Time 0: the context is fetched and cached; expiry scheduled at 10. -/
def c3S1 : StratState := (getTenantContext 0 "acme" c3S0).2

/-- Time 1: the entry is explicitly invalidated via `clearCache`. -/
def c3S2 : StratState := clearCache (some "acme") c3S1

/-- Time 2: the context is fetched and cached again; expiry scheduled at 12. -/
def c3S3 : StratState := (getTenantContext 2 "acme" c3S2).2

/-! ### Claim C7: two interleaved `getPrismaClient` calls for one tenant

The source has no per-tenant mutual exclusion or single-flight guard:
between the `prismaClients.has` check (line 409) and the
`prismaClients.set` (line 443) it awaits `validateTenant`,
`getTenantContext` and `client.$connect()`. We decompose one call for a
fixed valid, resolvable tenant `"X"` (whose dial succeeds, so no error
branch is reachable) into its segments between `await` points and run two
such tasks under an explicit interleaving schedule. -/

/-- Program counter of one in-flight `getPrismaClient("X")` call, split at
the `await` points of the source. -/
inductive DialPc where
  | start        -- about to run the synchronous pool-membership check
  | validating   -- suspended in `await this.validateTenant(...)`
  | resolving    -- suspended in `await this.getTenantContext(...)`
  | dialing      -- client constructed, suspended in `await client.connect`
  | done
deriving DecidableEq

/-- One caller's task state: program counter, the client handle it
constructed (if any), and the handle it eventually returns. -/
structure DialTask where
  pc : DialPc
  client : Option Nat
  result : Option Nat
deriving DecidableEq

/-- Shared state for two concurrent `getPrismaClient("X")` calls: the pool,
the handle allocator, the number of backend dials issued so far, and the
two tasks. -/
structure RaceState where
  pool : JsMap Nat
  nextHandle : Nat
  dials : Nat
  a : DialTask
  b : DialTask
deriving DecidableEq

/-- Advance one task by one segment (up to its next `await` point). -/
def dialStep (t : DialTask) (pool : JsMap Nat) (nextHandle dials : Nat) :
    DialTask × JsMap Nat × Nat × Nat :=
  match t.pc with
  | DialPc.start =>
      -- `if (this.prismaClients.has(tenantId)) return this.prismaClients.get(...)`
      match mapGet "X" pool with
      | some h =>
          ({ t with pc := DialPc.done, result := some h },
           pool, nextHandle, dials)
      | none => ({ t with pc := DialPc.validating }, pool, nextHandle, dials)
  | DialPc.validating =>
      -- the tenant is valid in this scenario
      ({ t with pc := DialPc.resolving }, pool, nextHandle, dials)
  | DialPc.resolving =>
      -- `new PrismaClient(...)` then `await client.$connect()`: one dial
      ({ t with pc := DialPc.dialing, client := some nextHandle },
       pool, nextHandle + 1, dials + 1)
  | DialPc.dialing =>
      -- resume after the dial: `this.prismaClients.set(tenantId, client)`
      ({ t with pc := DialPc.done, result := t.client },
       mapSet "X" (t.client.getD 0) pool, nextHandle, dials)
  | DialPc.done => (t, pool, nextHandle, dials)

/-- Run one scheduler step: `false` advances task `a`, `true` task `b`. -/
def raceStep (which : Bool) (s : RaceState) : RaceState :=
  if which then
    let r := dialStep s.b s.pool s.nextHandle s.dials
    { pool := r.2.1, nextHandle := r.2.2.1, dials := r.2.2.2
      a := s.a, b := r.1 }
  else
    let r := dialStep s.a s.pool s.nextHandle s.dials
    { pool := r.2.1, nextHandle := r.2.2.1, dials := r.2.2.2
      a := r.1, b := s.b }

/-- Run a whole interleaving schedule. -/
def raceRun : List Bool → RaceState → RaceState
  | [], s => s
  | w :: ws, s => raceRun ws (raceStep w s)

/-- Both callers start before any connection for `"X"` exists. -/
def raceInit : RaceState :=
  { pool := [], nextHandle := 0, dials := 0
    a := { pc := DialPc.start, client := none, result := none }
    b := { pc := DialPc.start, client := none, result := none } }

/-! ### Witness fixtures -/

/-- The directory used in concrete witnesses: two active tenants and one
inactive tenant. -/
def wDir : JsMap TenantRecord :=
  [("alpha", { name := "Alpha", isActive := true
               config := [("databaseUrl", "db://alpha")] }),
   ("beta", { name := "Beta", isActive := true
              config := [("databaseUrl", "db://beta")] }),
   ("gone", { name := "Gone", isActive := false, config := [] })]

/-- Witness configuration: `maxConnections = 1`, explicit template. -/
def wCfg : SeparateDatabaseConfig :=
  { masterDatabaseUrl := "db://m/x"
    databaseUrlTemplate := some "db://unit_{tenantId}"
    maxConnections := some 1
    cacheTtl := some 5 }

/-- A freshly constructed witness instance. -/
def wS0 : StratState := mkStrategy wCfg wDir

/-! ### The claim theorems -/

/-- C3: `getTenantContext` never stores the `setTimeout` handle, so neither
a later insertion for the same tenant id nor `clearCache` cancels a pending
expiry. Concretely (with `cacheTtl = 10`): insert at time 0 (expiry
scheduled at 10), explicitly invalidate at time 1, re-insert at time 2
(expiry scheduled at 12). Both timers are still pending, and when the stale
timer from the first insertion fires at time 10 it deletes the newer entry,
which its own schedule would keep until 12 — refuting the claim that a
stale expiry callback never evicts a newer cache entry. -/
theorem c3_stale_timer_evicts_newer_entry :
    (mapGet "acme" c3S3.tenantCache).isSome = true ∧
    c3S3.cacheTimers = [("acme", 10), ("acme", 12)] ∧
    mapGet "acme" (fireDueTimers 10 c3S3).tenantCache = none := by
  decide

/-- C7: the source has no per-tenant dial coalescing. Under the sequential
schedule the second caller hits the pool and both observe handle `0` after
one dial; under the racy (but legal) interleaving in which both callers
pass the `prismaClients.has` check before either inserts, two backend
dials are issued, the callers observe different handles (`0` and `1`), and
the pool ends up holding handle `1` while handle `0` is silently dropped —
refuting the claim of exactly one dial and a single shared handle. -/
theorem c7_concurrent_getOrCreate_double_dial :
    ((raceRun [false, false, false, false, true] raceInit).dials = 1 ∧
     (raceRun [false, false, false, false, true] raceInit).a.result = some 0 ∧
     (raceRun [false, false, false, false, true] raceInit).b.result = some 0) ∧
    ((raceRun [false, true, false, false, false, true, true, true]
        raceInit).dials = 2 ∧
     (raceRun [false, true, false, false, false, true, true, true]
        raceInit).a.result = some 0 ∧
     (raceRun [false, true, false, false, false, true, true, true]
        raceInit).b.result = some 1 ∧
     mapGet "X" (raceRun [false, true, false, false, false, true, true, true]
        raceInit).pool = some 1) := by
  decide

/-- C4: `dropTenantDatabase` performs its steps in the mandatory order —
close the pooled client (when pooled), terminate the other backend sessions,
issue the drop command, invalidate the cached context. The emitted trace is
always a prefix of that sequence (a failing backend command stops it), on
success it is exactly that sequence, and a pooled handle really is closed in
the resulting state. -/
theorem c4_dropStorage_mandatory_order (env : Env) (tid : String)
    (s : StratState) :
    (∃ k, (dropTenantDatabase env tid s).2.2 =
      ((match mapGet tid s.prismaClients with
        | some h => [DropEvent.closePooled h]
        | none => []) ++
       [DropEvent.terminateSessions ("tenant_" ++ tid),
        DropEvent.dropCommand ("tenant_" ++ tid),
        DropEvent.cacheInvalidate tid]).take k) ∧
    ((dropTenantDatabase env tid s).1 = true →
      (dropTenantDatabase env tid s).2.2 =
        (match mapGet tid s.prismaClients with
         | some h => [DropEvent.closePooled h]
         | none => []) ++
        [DropEvent.terminateSessions ("tenant_" ++ tid),
         DropEvent.dropCommand ("tenant_" ++ tid),
         DropEvent.cacheInvalidate tid]) ∧
    (∀ h, mapGet tid s.prismaClients = some h →
      h ∈ (dropTenantDatabase env tid s).2.1.closed) := by
  cases hpc : mapGet tid s.prismaClients with
  | none =>
      by_cases ht : env.exec (RawCmd.terminateSessions ("tenant_" ++ tid)) = false
      · refine ⟨⟨1, ?_⟩, ?_, ?_⟩ <;> simp [dropTenantDatabase, hpc, ht]
      · by_cases hd : env.exec (RawCmd.dropDb ("tenant_" ++ tid)) = false
        · refine ⟨⟨2, ?_⟩, ?_, ?_⟩ <;> simp [dropTenantDatabase, hpc, ht, hd]
        · refine ⟨⟨4, ?_⟩, ?_, ?_⟩ <;> simp [dropTenantDatabase, hpc, ht, hd]
  | some h₀ =>
      by_cases ht : env.exec (RawCmd.terminateSessions ("tenant_" ++ tid)) = false
      · refine ⟨⟨2, ?_⟩, ?_, ?_⟩ <;> simp [dropTenantDatabase, hpc, ht]
      · by_cases hd : env.exec (RawCmd.dropDb ("tenant_" ++ tid)) = false
        · refine ⟨⟨3, ?_⟩, ?_, ?_⟩ <;> simp [dropTenantDatabase, hpc, ht, hd]
        · refine ⟨⟨5, ?_⟩, ?_, ?_⟩ <;> simp [dropTenantDatabase, hpc, ht, hd]

/-- C5: a failing backend provisioning command makes the operation fail —
the source catches the exception, logs it, and signals the failure to the
caller as `false` (the spec's `ProvisioningError`); it is never silently
swallowed into a success. `CREATE DATABASE` failing (as when the unit
already exists) fails `createTenantDatabase`; a failing session-termination
or drop command fails `dropTenantDatabase`. The backup and restore methods
are placeholders that issue no backend command and always succeed, so the
claim is vacuous for them. -/
theorem c5_provisioning_failure_surfaced (env : Env) (tid path : String)
    (s : StratState) :
    (env.exec (RawCmd.createDb ("tenant_" ++ tid)) = false →
      (createTenantDatabase env tid s).1 = false) ∧
    ((env.exec (RawCmd.terminateSessions ("tenant_" ++ tid)) = false ∨
      env.exec (RawCmd.dropDb ("tenant_" ++ tid)) = false) →
      (dropTenantDatabase env tid s).1 = false) ∧
    (backupTenantDatabase tid path s).1 = true ∧
    (restoreTenantDatabase tid path s).1 = true := by
  refine ⟨fun hce => by simp [createTenantDatabase, hce], ?_, rfl, rfl⟩
  intro hfail
  cases hpc : mapGet tid s.prismaClients with
  | none =>
      by_cases ht : env.exec (RawCmd.terminateSessions ("tenant_" ++ tid)) = false
      · simp [dropTenantDatabase, hpc, ht]
      · rcases hfail with hfail | hfail
        · exact absurd hfail ht
        · simp [dropTenantDatabase, hpc, ht, hfail]
  | some h₀ =>
      by_cases ht : env.exec (RawCmd.terminateSessions ("tenant_" ++ tid)) = false
      · simp [dropTenantDatabase, hpc, ht]
      · rcases hfail with hfail | hfail
        · exact absurd hfail ht
        · simp [dropTenantDatabase, hpc, ht, hfail]

/-- C6: `createTenantDatabase` touches the directory only after the backend
`CREATE DATABASE` command has succeeded — a changed directory implies the
command succeeded, and every failing run leaves the directory exactly as it
was; and the pool is never touched, so a successful creation adds no pool
entry (the connection is opened lazily on first use). -/
theorem c6_createStorage_no_partial_update (env : Env) (tid : String)
    (s : StratState) :
    ((createTenantDatabase env tid s).2.dir ≠ s.dir →
      env.exec (RawCmd.createDb ("tenant_" ++ tid)) = true) ∧
    ((createTenantDatabase env tid s).1 = false →
      (createTenantDatabase env tid s).2.dir = s.dir) ∧
    (createTenantDatabase env tid s).2.prismaClients = s.prismaClients := by
  by_cases hce : env.exec (RawCmd.createDb ("tenant_" ++ tid)) = false
  · refine ⟨?_, ?_, ?_⟩ <;> simp [createTenantDatabase, hce]
  · have hce' : env.exec (RawCmd.createDb ("tenant_" ++ tid)) = true := by
      simpa using hce
    cases hdir : mapGet tid s.dir with
    | none =>
        refine ⟨?_, ?_, ?_⟩ <;> simp [createTenantDatabase, hce, hdir]
    | some r =>
        refine ⟨fun _ => hce', ?_, ?_⟩ <;>
          simp [createTenantDatabase, hce, hdir]

/-- C8: `disconnectAll` empties the pool, closes every previously pooled
handle, and releases the master (directory) connection only after all the
pooled handles: the emitted trace is the pooled handle closes followed by
the master close as its final event. -/
theorem c8_closeAll_empties_and_closes (s : StratState) :
    (disconnectAll s).1.prismaClients = [] ∧
    (∀ h ∈ s.prismaClients.map Prod.snd, h ∈ (disconnectAll s).1.closed) ∧
    (disconnectAll s).1.masterClosed = true ∧
    (disconnectAll s).2.dropLast
      = s.prismaClients.map (fun p => ShutdownEvent.closeHandle p.2) ∧
    (disconnectAll s).2.getLast? = some ShutdownEvent.closeMaster := by
  refine ⟨rfl, ?_, rfl, ?_, ?_⟩
  · intro h hmem
    simp only [disconnectAll, List.mem_append]
    exact Or.inr hmem
  · simp [disconnectAll]
  · simp [disconnectAll]

/-- C9: every failing `getPrismaClient` call — invalid tenant, unresolvable
context or descriptor, or failed dial — leaves the pool's tenant-to-handle
map exactly as it was and closes no handle. -/
theorem c9_failed_getOrCreate_pool_unchanged {env : Env} {now : Nat}
    {tid : String} {s : StratState} {e : GetErr}
    (h : (getPrismaClient env now tid s).1 = GetResult.error e) :
    ((getPrismaClient env now tid s).2).prismaClients = s.prismaClients ∧
    ((getPrismaClient env now tid s).2).closed = s.closed :=
  getPrismaClient_error_frame h

/-- C10: when `createTenantDatabase` succeeds for a tenant that has a
directory record, the record's `config` is overwritten with an object whose
only key is `databaseUrl` (holding the template-derived URL); every other
previously present config key is discarded. -/
theorem c10_createStorage_overwrites_config {env : Env} {tid : String}
    {s : StratState} {r : TenantRecord} (hr : mapGet tid s.dir = some r)
    (hok : (createTenantDatabase env tid s).1 = true) :
    mapGet tid (createTenantDatabase env tid s).2.dir =
      some { r with config :=
        [("databaseUrl", getDatabaseUrlForTenant s tid)] } ∧
    (mapGet tid (createTenantDatabase env tid s).2.dir).map
        (fun rec => rec.config.map Prod.fst) = some ["databaseUrl"] := by
  by_cases hce : env.exec (RawCmd.createDb ("tenant_" ++ tid)) = false
  · rw [show (createTenantDatabase env tid s).1 = false by
      simp [createTenantDatabase, hce]] at hok
    exact absurd hok (by simp)
  · have hdir : (createTenantDatabase env tid s).2.dir =
        mapSet tid
          { r with config :=
              [("databaseUrl", getDatabaseUrlForTenant s tid)] } s.dir := by
      simp [createTenantDatabase, hce, hr]
    rw [hdir, mapGet_mapSet_self]
    exact ⟨rfl, rfl⟩

/-! ### Witnesses: the claim theorems applied at concrete inputs -/

/-- An environment whose commands succeed but whose dials all fail. -/
def envNoDial : Env := { exec := fun _ => true, dialOk := fun _ => false }

/-- Witness for C1 at `N = 1`, tenants `["alpha", "beta"]`: after both
calls the pool holds exactly `beta` and `alpha`'s handle `0` was closed. -/
theorem c1_witness :
    getActiveTenants (runAll envAll 0 ["alpha", "beta"]
        (mkStrategy ⟨"db://m/x", some "db://unit_{tenantId}", some 1, some 5⟩
          wDir)) = ["beta"] ∧
    (runAll envAll 0 ["alpha", "beta"]
        (mkStrategy ⟨"db://m/x", some "db://unit_{tenantId}", some 1, some 5⟩
          wDir)).closed = [0] := by
  have h := c1_pool_bounded_fifo "db://m/x" (some "db://unit_{tenantId}") 1 5
    (by decide) wDir envAll 0 ["alpha", "beta"] (by decide) (by decide)
    (by
      intro t ht
      rcases List.mem_cons.mp ht with rfl | ht'
      · exact ⟨_, rfl, rfl⟩
      rcases List.mem_cons.mp ht' with rfl | ht''
      · exact ⟨_, rfl, rfl⟩
      · exact absurd ht'' (by simp))
    (by
      intro t ht
      rcases List.mem_cons.mp ht with rfl | ht'
      · exact ⟨by decide, rfl⟩
      rcases List.mem_cons.mp ht' with rfl | ht''
      · exact ⟨by decide, rfl⟩
      · exact absurd ht'' (by simp))
  exact ⟨h.2.1, h.2.2⟩

/-- Witness for C2: the inactive tenant `"gone"` at the (reachable) initial
state — `getPrismaClient` fails with the invalid-tenant error and returns
the state unchanged. -/
theorem c2_witness :
    getPrismaClient envAll 0 "gone" wS0
      = (GetResult.error GetErr.invalidTenant, wS0) := by
  refine c2_inactive_or_absent_notFound Reachable.init ?_ envAll 0
  intro r hr
  have hg : mapGet "gone" (mkStrategy wCfg wDir).dir
      = some { name := "Gone", isActive := false
               config := ([] : List (String × String)) } := by decide
  rw [hg] at hr
  obtain rfl := Option.some.inj hr
  rfl

/-- Witness for C9: a failed dial for the active tenant `"alpha"` leaves
the pool map and the closed-handle list untouched. -/
theorem c9_witness :
    (getPrismaClient envNoDial 0 "alpha" wS0).1
      = GetResult.error GetErr.connectionFailed ∧
    ((getPrismaClient envNoDial 0 "alpha" wS0).2).prismaClients
      = wS0.prismaClients ∧
    ((getPrismaClient envNoDial 0 "alpha" wS0).2).closed = wS0.closed := by
  have h : (getPrismaClient envNoDial 0 "alpha" wS0).1
      = GetResult.error GetErr.connectionFailed := by decide
  exact ⟨h, c9_failed_getOrCreate_pool_unchanged h⟩

/-- Witness for C10: a successful `createTenantDatabase` for `"alpha"`
(whose config also held other data in `wDir` — here the stored descriptor)
leaves a config whose only key is `databaseUrl`. -/
theorem c10_witness :
    mapGet "alpha" (createTenantDatabase envAll "alpha" wS0).2.dir =
      some { name := "Alpha", isActive := true
             config := [("databaseUrl", "db://unit_alpha")] } ∧
    (mapGet "alpha" (createTenantDatabase envAll "alpha" wS0).2.dir).map
        (fun rec => rec.config.map Prod.fst) = some ["databaseUrl"] := by
  have h := @c10_createStorage_overwrites_config envAll "alpha" wS0
    { name := "Alpha", isActive := true
      config := [("databaseUrl", "db://alpha")] }
    (by decide) (by decide)
  constructor
  · rw [h.1]
    decide
  · exact h.2

end SecureApi
